import Mathlib

/-!
Verification model of `jonperdomo/dlc-label-editor`.

The repository has two source files, `editor.py` (class `Editor`) and
`matconverter.py` (class `MatConverter`).  This development shallowly embeds
the parts of both that the specification talks about:

* the annotation table (`pandas` dataframe indexed by
  `(scorer, label, channel)` columns and frame rows) becomes `Table`, a list
  of frame rows, each row a list of `Cell`s indexed by the label's position
  in the sorted unique label-name list; a channel value is `Option ℚ`
  (`none` plays the role of the float `NaN` missing sentinel);
* the mutable `Editor` object becomes the record `EState`;
* the cv2 callbacks (`_edit_label`, `_on_label_trackbar`,
  `_on_frame_trackbar`), the keyboard handling in `Editor.run`, and the body
  of the `run` loop become a step function `stepEvent` over an explicit
  event type, with the file writes the code performs (`to_hdf` in
  `_save_label`, `savemat` in `_save_matlab_file`) collected in a trace of
  `FWrite` values;
* the output-path computations of `Editor.__init__` (line 44:
  `splitext(basename(...))[0].rsplit('_Fixed')[0]`) and of
  `_save_matlab_file` become functions on the base filename as `List Char`.

Display-only work in the callbacks (seeking the video capture, drawing the
marker with `_draw_label`, `cv2.imshow`) does not touch the annotation data
or the cursor fields and is therefore not represented in the state.
-/

namespace DLCLabelEditor

/-- One `(frame, label)` cell of the annotation table: the three channels
`x`, `y`, `likelihood` of the DeepLabCut dataframe.  `none` models the
float `NaN` missing sentinel. -/
structure Cell where
  x : Option ℚ
  y : Option ℚ
  likelihood : Option ℚ
deriving DecidableEq

/-- The annotation table: outer list indexed by frame, inner list indexed by
the label's position in the sorted unique label-name list
(`self.__label_names`). -/
abbrev Table := List (List Cell)

/-- The cell used when an index is out of range (the claims only quantify
over in-range indices; pandas would raise a `KeyError` there). -/
def defaultCell : Cell := { x := none, y := none, likelihood := none }

/-- Read the cell of `t` at frame `f`, label `l`. -/
def cellAt (t : Table) (f l : Nat) : Cell :=
  (t.getD f []).getD l defaultCell

/-- Helper for `setCoordinate`: overwrite the `x` and `y` channels of the
cell at label index `l` of one frame row. -/
def setInRow : List Cell → Nat → ℚ → ℚ → List Cell
  | [], _, _, _ => []
  | c :: cs, 0, x, y => { c with x := some x, y := some y } :: cs
  | c :: cs, Nat.succ l, x, y => c :: setInRow cs l x y

/-- The store mutation of `Editor._save_label` lines 98-99: write `x` and
`y` of the `(frame, label)` cell of the dataframe, leaving every other
entry (including every `likelihood`) alone. -/
def setCoordinate : Table → Nat → Nat → ℚ → ℚ → Table
  | [], _, _, _, _ => []
  | row :: rows, 0, l, x, y => setInRow row l x y :: rows
  | row :: rows, Nat.succ f, l, x, y => row :: setCoordinate rows f l x y

/-- A file write performed by the program: `primary` is the `to_hdf` write
of the whole table to the `_Fixed.h5` path (in `_save_label`), `secondary`
is the `savemat` write of the per-label channel sequences (in
`_save_matlab_file`). -/
inductive FWrite where
  | primary (t : Table)
  | secondary (d : List (List (Option ℚ) × List (Option ℚ) × List (Option ℚ)))
deriving DecidableEq

/-- Test for a primary (`to_hdf`) write. -/
def FWrite.isPrimary : FWrite → Bool
  | .primary _ => true
  | .secondary _ => false

/-- The mutable fields of the `Editor` object that the session touches.
`frameMax` is the value of `self.__frame_count`, i.e. the video frame count
minus one, which is both the `Frame` trackbar maximum and the keyboard
clamp bound.  Frame and label cursors are `Int` because Python integers are
unbounded and the keyboard path computes `current_frame - 1` before
clamping. -/
structure EState where
  table : Table
  labelCount : Nat
  frameMax : Int
  currentLabel : Int
  currentFrame : Int
  mx : Int
  my : Int
  mousePressed : Bool
  changesMade : Bool
deriving DecidableEq

/-- Embedding of `Editor._save_label(x, y)`: write both channels of the active cell,
immediately write the whole updated table to the `_Fixed.h5` file
(`to_hdf`, line 102), and set `self.__changes_made`. -/
def saveLabel (s : EState) (x y : Int) : EState × List FWrite :=
  let t := setCoordinate s.table s.currentFrame.toNat s.currentLabel.toNat
    (x : ℚ) (y : ℚ)
  ({ s with table := t, changesMade := true }, [FWrite.primary t])

/-- The body of one `Editor.run` loop iteration (lines 180-196): re-seek
and redraw, and, when the mouse is pressed, `_save_label(self.__mx,
self.__my)`.  Only the save is state-relevant. -/
def loopBody (s : EState) : EState × List FWrite :=
  if s.mousePressed then saveLabel s s.mx s.my else (s, [])

/-- The input events of a session.  `pointerDown`, `pointerMove` and
`pointerUp` are the `cv2` mouse callback cases of `_edit_label`;
`labelSlider` and `frameSlider` are the two trackbar callbacks; the `key`
events are the `cv2.waitKey` results handled in `run` (`,` = previous
frame, `.` = next frame, any other non-ESC key), each followed by the next
loop iteration's body.  ESC is modeled by the end of the event list. -/
inductive Event where
  | pointerDown (ex ey : Int)
  | pointerUp
  | pointerMove (ex ey : Int)
  | labelSlider (v : Int)
  | frameSlider (v : Int)
  | keyLeft
  | keyRight
  | keyOther
deriving DecidableEq

/-- One event of the session.  Mouse and trackbar callbacks fire while
`run` blocks in `cv2.waitKey`; a key event unblocks the loop, updates the
frame cursor (lines 200-203) and then the next iteration's body runs. -/
def stepEvent (s : EState) : Event → EState × List FWrite
  | .pointerDown ex ey =>
      let s1 := { s with mx := ex, my := ey }
      let r := saveLabel s1 ex ey
      ({ r.1 with mousePressed := true }, r.2)
  | .pointerUp => ({ s with mousePressed := false }, [])
  | .pointerMove ex ey =>
      if s.mousePressed then ({ s with mx := ex, my := ey }, []) else (s, [])
  | .labelSlider v => ({ s with currentLabel := v }, [])
  | .frameSlider v => ({ s with currentFrame := v }, [])
  | .keyLeft => loopBody { s with currentFrame := max 0 (s.currentFrame - 1) }
  | .keyRight =>
      loopBody { s with currentFrame := min s.frameMax (s.currentFrame + 1) }
  | .keyOther => loopBody s

/-- Process a list of events, accumulating the file writes. -/
def processEvents : EState → List Event → EState × List FWrite
  | s, [] => (s, [])
  | s, e :: rest =>
      let r := stepEvent s e
      let r2 := processEvents r.1 rest
      (r2.1, r.2 ++ r2.2)

/-- The three channels of a cell. -/
inductive Channel where
  | x
  | y
  | likelihood
deriving DecidableEq

/-- Project a channel out of a cell. -/
def chOf (c : Cell) : Channel → Option ℚ
  | .x => c.x
  | .y => c.y
  | .likelihood => c.likelihood

/-- One column of `Editor._save_matlab_file`:
`self.__label_data[(name, label, ch)].to_numpy()`, the frame-ordered
sequence of one channel of one label. -/
def columnOf (t : Table) (l : Nat) (ch : Channel) : List (Option ℚ) :=
  t.map fun row => chOf (row.getD l defaultCell) ch

/-- The `df_out` structure built by `Editor._save_matlab_file` lines
157-169: for every label (in `self.__label_names` order) the three
frame-ordered channel sequences. -/
def exportSecondary (t : Table) (labelCount : Nat) :
    List (List (Option ℚ) × List (Option ℚ) × List (Option ℚ)) :=
  (List.range labelCount).map fun l =>
    (columnOf t l Channel.x, columnOf t l Channel.y,
      columnOf t l Channel.likelihood)

/-- The writes performed after the `run` loop exits (lines 213-218): if
`self.__changes_made`, convert the final in-memory table with
`_save_matlab_file` and write the `.mat` file; otherwise nothing. -/
def sessionEnd (s : EState) : List FWrite :=
  if s.changesMade then
    [FWrite.secondary (exportSecondary s.table s.labelCount)]
  else []

/-- A whole session: the first `run` loop body (which runs before any
input), then the events, then the after-loop writes.  The result is the
final state, the writes performed while the loop was live, and the writes
performed at session end. -/
def runSession (s : EState) (evs : List Event) :
    EState × List FWrite × List FWrite :=
  let r0 := loopBody s
  let r1 := processEvents r0.1 evs
  (r1.1, r0.2 ++ r1.2, sessionEnd r1.1)

/-- Python's built-in `round` on a non-NaN value: round half to even. -/
def pyRound (q : ℚ) : ℤ :=
  let f := ⌊q⌋
  let r := q - (f : ℚ)
  if r < 1 / 2 then f
  else if 1 / 2 < r then f + 1
  else if Even f then f else f + 1

/-- Embedding of `Editor._get_label_xy` (lines 78-84).  The code reads the `x` and `y`
channels of the active cell and converts each with
`int(round(v)) if not np.isnan(x_f) else np.nan` — the guard on BOTH lines
tests `x_f`.  When `x` is `NaN` the result is `(nan, nan)` whatever `y`
is; when `x` is a number and `y` is `NaN`, `int(round(nan))` raises
`ValueError`, modeled by `Except.error ()`.  This is a pure function of
the table: it cannot mutate any state. -/
def getLabelXY (t : Table) (f l : Nat) :
    Except Unit (Option ℤ × Option ℤ) :=
  let c := cellAt t f l
  match c.x with
  | none => Except.ok (none, none)
  | some xv =>
      match c.y with
      | none => Except.error ()
      | some yv => Except.ok (some (pyRound xv), some (pyRound yv))

/-- The missing-together property of a table: in every cell, the `x`
channel is the `NaN` sentinel exactly when the `y` channel is. -/
def missingTogether (t : Table) : Bool :=
  t.all fun row => row.all fun c => c.x.isNone == c.y.isNone

/-- Does `needle` stand at the head of `s`?  (`needle` is a prefix of
`s`.) -/
def leadsWith : List Char → List Char → Bool
  | [], _ => true
  | _ :: _, [] => false
  | a :: as, b :: bs => a == b && leadsWith as bs

/-- Does `needle` occur anywhere in `s` (Python's `needle in s`)? -/
def hasMark (needle : List Char) : List Char → Bool
  | [] => needle.isEmpty
  | c :: rest => leadsWith needle (c :: rest) || hasMark needle rest

/-- Everything of `s` strictly before the first occurrence of `needle`
(all of `s` if `needle` does not occur).  For a separator with no
self-overlapping occurrences — `"_Fixed"` has none — this is exactly
Python's `s.rsplit(needle)[0]`, since `rsplit` with no maxsplit cuts at
every occurrence and piece `[0]` is the text before the leftmost one. -/
def cutAtMark (needle : List Char) : List Char → List Char
  | [] => []
  | c :: rest =>
      if leadsWith needle (c :: rest) then []
      else c :: cutAtMark needle rest

/-- The suffix marker of the corrected-label output filename. -/
def fixedMark : List Char := "_Fixed".toList

/-- The basename (with extension) of the primary output file computed in
`Editor.__init__` lines 44-47 from the basename-without-extension `base`
of the input label file:
`base.rsplit('_Fixed')[0]` followed by `"%s_Fixed.h5"`. -/
def editorFixedName (base : List Char) : List Char :=
  cutAtMark fixedMark base ++ "_Fixed.h5".toList

/-- Modelled from the spec claim C9 for comparison: the input base
filename with a trailing `"_Fixed"` suffix removed if present, then
`"_Fixed"` appended, with the same extension `ext` as the input table
file. -/
def claimedFixedName (base ext : List Char) : List Char :=
  (if leadsWith fixedMark.reverse base.reverse then
    base.take (base.length - fixedMark.length)
  else base) ++ "_Fixed".toList ++ ext

/-- The basename of the secondary (`.mat`) output file computed in
`Editor._save_matlab_file` lines 146-149: the input basename without
extension, with `".mat"` appended. -/
def editorMatName (base : List Char) : List Char :=
  base ++ ".mat".toList

/-- Embedding of `MatConverter._save_matlab_file` lines 39-42 of `matconverter.py`:
the same output-path computation, embedded separately from that file. -/
def converterMatName (base : List Char) : List Char :=
  base ++ ".mat".toList

/-- One column of `MatConverter._save_matlab_file` (lines 47-52 of
`matconverter.py`), embedded separately from that file. -/
def converterColumnOf (t : Table) (l : Nat) (ch : Channel) :
    List (Option ℚ) :=
  t.map fun row => chOf (row.getD l defaultCell) ch

/-- The `df_out` structure built by `MatConverter._save_matlab_file`
lines 45-57 of `matconverter.py`, embedded separately from that file. -/
def converterExportSecondary (t : Table) (labelCount : Nat) :
    List (List (Option ℚ) × List (Option ℚ) × List (Option ℚ)) :=
  (List.range labelCount).map fun l =>
    (converterColumnOf t l Channel.x, converterColumnOf t l Channel.y,
      converterColumnOf t l Channel.likelihood)

/-- No nonempty proper suffix of `needle` is also a prefix of `needle`;
under this condition occurrences of `needle` cannot overlap, so cutting
at the leftmost occurrence agrees with Python's `rsplit` pieces. -/
def NoSelfOverlap (needle : List Char) : Prop :=
  ∀ m, m < needle.length → 0 < m →
    leadsWith (needle.drop m) needle = false

/-- A concrete table and editor state used by the witness and
counterexample theorems below: one frame, one label, the label initially
at `(1, 2)` with likelihood `1`. -/
def initState0 : EState :=
  { table := [[{ x := some 1, y := some 2, likelihood := some 1 }]]
    labelCount := 1
    frameMax := 0
    currentLabel := 0
    currentFrame := 0
    mx := 0
    my := 0
    mousePressed := false
    changesMade := false }

/-- The drag scenario of the specification's write-completeness test:
press at `(5, 5)`, drag through `(6, 6)` and `(7, 7)`, release.  No key
is pressed, so the main loop stays blocked in `cv2.waitKey` throughout. -/
def dragEvents : List Event :=
  [Event.pointerDown 5 5, Event.pointerMove 6 6, Event.pointerMove 7 7,
   Event.pointerUp]

/-- A concrete two-frame, two-label table for the frame-effect witness. -/
def c7Table : Table :=
  [[{ x := some 1, y := some 2, likelihood := some 3 },
    { x := none, y := none, likelihood := some 4 }],
   [{ x := some 7, y := some 8, likelihood := some 9 },
    { x := some 10, y := some 11, likelihood := some 12 }]]

/-- A state with several frames and labels for the clamping witness. -/
def clampState0 : EState :=
  { table := []
    labelCount := 3
    frameMax := 9
    currentLabel := 1
    currentFrame := 4
    mx := 0
    my := 0
    mousePressed := false
    changesMade := false }

/-- C1, counterexample.  Running the event sequence `pointer_down(5,5)`,
`pointer_drag(6,6)`, `pointer_drag(7,7)`, `pointer_up()` from a concrete
one-cell session leaves the store holding `(5, 5)` — the press position —
not the `(7, 7)` the claim demands, because `EVENT_MOUSEMOVE` in
`Editor._edit_label` only updates `self.__mx, self.__my` and redraws; it
never calls `_save_label`, and the `run` loop save (line 191) cannot run
while `cv2.waitKey` is still blocked. -/
theorem c1_counterexample :
    (cellAt (runSession initState0 dragEvents).1.table 0 0).x = some 5 ∧
    (cellAt (runSession initState0 dragEvents).1.table 0 0).y = some 5 ∧
    ¬((cellAt (runSession initState0 dragEvents).1.table 0 0).x = some 7 ∧
      (cellAt (runSession initState0 dragEvents).1.table 0 0).y = some 7) ∧
    (runSession initState0 dragEvents).1.changesMade = true := by decide

/-- C1, amended.  `pointer_down(a, b)` immediately writes `(a, b)` to the
store and performs the primary file write; each subsequent drag movement
only updates the live pointer position; `pointer_up` only clears the
pressed flag.  So the drag sequence leaves the store holding the press
position, the live pointer at the last drag position, and `dirty`
(`changes_made`) true; drag positions would be committed only by a later
main-loop iteration while the pointer is still down. -/
theorem c1_drag_semantics (s : EState) (a b c d e f : Int) :
    processEvents s [Event.pointerDown a b, Event.pointerMove c d,
      Event.pointerMove e f, Event.pointerUp]
    = ({ s with table := setCoordinate s.table s.currentFrame.toNat s.currentLabel.toNat (a : ℚ) (b : ℚ), mx := e, my := f, mousePressed := false, changesMade := true },
       [FWrite.primary (setCoordinate s.table s.currentFrame.toNat
          s.currentLabel.toNat (a : ℚ) (b : ℚ))]) := rfl

/-- C3.  The coordinate read is not total on in-range cells: on a cell
whose `x` channel holds a value and whose `y` channel is the missing
sentinel, `_get_label_xy` evaluates `int(round(nan))` and raises
`ValueError`, because line 83 guards the `y` conversion with
`np.isnan(x_f)` instead of `np.isnan(y_f)`.  The claim (and the spec's
store contract) says the read must not raise on any in-range cell. -/
theorem c3_mixed_missing_raises :
    getLabelXY [[{ x := some 5, y := none, likelihood := some 1 }]] 0 0
      = Except.error () := rfl

/-- C10.  The secondary-format export of `Editor._save_matlab_file` and
the one of `MatConverter._save_matlab_file`, embedded separately from the
two source files, agree on every table, and both derive the same output
basename (input basename without extension, with `.mat` appended, in the
same directory). -/
theorem c10_converter_equivalence (t : Table) (labelCount : Nat)
    (base : List Char) :
    exportSecondary t labelCount = converterExportSecondary t labelCount ∧
    editorMatName base = converterMatName base :=
  ⟨rfl, rfl⟩

/-- The loop body never moves the frame cursor. -/
lemma loopBody_currentFrame (s : EState) :
    (loopBody s).1.currentFrame = s.currentFrame := by
  by_cases h : s.mousePressed <;> simp [loopBody, saveLabel, h]

/-- C2.  Cursor clamping.  A frame-slider request `v` within the `Frame`
trackbar range `[0, frameMax]` set up in `__init__` (line 63), and a
label-slider request `w` within the `Label` trackbar range
`[0, labelCount - 1]` (line 62), land exactly on
`max 0 (min request bound)`; the keyboard previous/next-frame requests
`current_frame ∓ 1` are clamped to the same law by lines 201 and 203
(`frameMax` is the code's `self.__frame_count`, i.e. the video frame
count minus one, so the clamp bound `frame_count - 1` of the claim is
`frameMax`).  No request path can error: every handler is total. -/
theorem c2_cursor_clamping (s : EState) (v w : Int)
    (hfm : 0 ≤ s.frameMax)
    (hv0 : 0 ≤ v) (hvf : v ≤ s.frameMax)
    (hw0 : 0 ≤ w) (hwl : w ≤ (s.labelCount : Int) - 1)
    (hc0 : 0 ≤ s.currentFrame) (hcf : s.currentFrame ≤ s.frameMax) :
    (stepEvent s (Event.frameSlider v)).1.currentFrame
        = max 0 (min v s.frameMax) ∧
    (stepEvent s (Event.labelSlider w)).1.currentLabel
        = max 0 (min w ((s.labelCount : Int) - 1)) ∧
    (stepEvent s Event.keyLeft).1.currentFrame
        = max 0 (min (s.currentFrame - 1) s.frameMax) ∧
    (stepEvent s Event.keyRight).1.currentFrame
        = max 0 (min (s.currentFrame + 1) s.frameMax) := by
  refine ⟨?_, ?_, ?_, ?_⟩
  · simp only [stepEvent]
    omega
  · simp only [stepEvent]
    omega
  · simp only [stepEvent, loopBody_currentFrame]
    omega
  · simp only [stepEvent, loopBody_currentFrame]
    omega

/-- C2, witness: the clamping law evaluated on a concrete state with ten
frames and three labels, slider requests `7` and `2`. -/
theorem c2_witness :
    (stepEvent clampState0 (Event.frameSlider 7)).1.currentFrame
        = max 0 (min 7 clampState0.frameMax) ∧
    (stepEvent clampState0 (Event.labelSlider 2)).1.currentLabel
        = max 0 (min 2 ((clampState0.labelCount : Int) - 1)) ∧
    (stepEvent clampState0 Event.keyLeft).1.currentFrame
        = max 0 (min (clampState0.currentFrame - 1) clampState0.frameMax) ∧
    (stepEvent clampState0 Event.keyRight).1.currentFrame
        = max 0 (min (clampState0.currentFrame + 1) clampState0.frameMax) :=
  c2_cursor_clamping clampState0 7 2 (by decide) (by decide) (by decide)
    (by decide) (by decide) (by decide) (by decide)

/-- One step sets `changes_made` exactly when it emits a file write:
the only mutation sites are the `_save_label` calls, each of which both
writes the file and sets the flag. -/
lemma stepEvent_changes (s : EState) (e : Event) :
    (stepEvent s e).1.changesMade
      = (s.changesMade || !(stepEvent s e).2.isEmpty) := by
  cases e <;>
    simp only [stepEvent, saveLabel, loopBody] <;>
    first
      | simp
      | (split <;> simp)

/-- The loop body sets `changes_made` exactly when it emits a write. -/
lemma loopBody_changes (s : EState) :
    (loopBody s).1.changesMade
      = (s.changesMade || !(loopBody s).2.isEmpty) := by
  by_cases h : s.mousePressed <;> simp [loopBody, saveLabel, h]

/-- Over a whole event sequence, the final `changes_made` flag is the
initial one joined with "some write happened". -/
lemma processEvents_changes (s : EState) (evs : List Event) :
    (processEvents s evs).1.changesMade
      = (s.changesMade || !(processEvents s evs).2.isEmpty) := by
  induction evs generalizing s with
  | nil => simp [processEvents]
  | cons e rest ih =>
      simp only [processEvents]
      rw [ih, stepEvent_changes]
      cases h1 : (stepEvent s e).2 <;>
        cases h2 : (processEvents (stepEvent s e).1 rest).2 <;>
        simp

/-- Every write a step emits is a primary (`to_hdf`) write. -/
lemma stepEvent_writes_primary (s : EState) (e : Event) :
    ∀ w ∈ (stepEvent s e).2, ∃ t, w = FWrite.primary t := by
  cases e <;>
    simp only [stepEvent, saveLabel, loopBody] <;>
    first
      | simp
      | (split <;> simp)

/-- Every write the loop body emits is a primary write. -/
lemma loopBody_writes_primary (s : EState) :
    ∀ w ∈ (loopBody s).2, ∃ t, w = FWrite.primary t := by
  by_cases h : s.mousePressed <;> simp [loopBody, saveLabel, h]

/-- Every write emitted while processing events is a primary write. -/
lemma processEvents_writes_primary (s : EState) (evs : List Event) :
    ∀ w ∈ (processEvents s evs).2, ∃ t, w = FWrite.primary t := by
  induction evs generalizing s with
  | nil => simp [processEvents]
  | cons e rest ih =>
      simp only [processEvents, List.mem_append]
      intro w hw
      rcases hw with hw | hw
      · exact stepEvent_writes_primary s e w hw
      · exact ih (stepEvent s e).1 w hw

/-- C4.  If the session ends with `dirty == false` (no `pointer_down` was
accepted and no loop iteration ran with the pointer down), then no file
write of either kind happened: the only `to_hdf` site is `_save_label`,
which also sets `changes_made`, and the `.mat` write after the loop is
guarded by `if self.__changes_made` (line 213). -/
theorem c4_no_edit_no_output (s : EState) (evs : List Event)
    (h : (runSession s evs).1.changesMade = false) :
    (runSession s evs).2.1 = [] ∧ (runSession s evs).2.2 = [] := by
  have hpe := processEvents_changes (loopBody s).1 evs
  have hlb := loopBody_changes s
  simp only [runSession] at h ⊢
  rw [hpe, hlb] at h
  rcases Bool.or_eq_false_iff.mp h with ⟨h1, h2⟩
  rcases Bool.or_eq_false_iff.mp h1 with ⟨_, h3⟩
  have e1 : (loopBody s).2 = [] :=
    List.isEmpty_iff.mp (by revert h3; cases (loopBody s).2.isEmpty <;> simp)
  have e2 : (processEvents (loopBody s).1 evs).2 = [] :=
    List.isEmpty_iff.mp
      (by revert h2
          cases (processEvents (loopBody s).1 evs).2.isEmpty <;> simp)
  refine ⟨by rw [e1, e2]; rfl, ?_⟩
  have hfin : (processEvents (loopBody s).1 evs).1.changesMade = false := by
    rw [hpe, hlb]
    exact h
  simp [sessionEnd, hfin]

/-- C4, witness: a session that only moves the pointer while it is up and
presses an unmapped key produces no writes at all. -/
theorem c4_witness :
    (runSession initState0 [Event.pointerMove 3 3, Event.keyOther]).2.1 = []
    ∧ (runSession initState0 [Event.pointerMove 3 3, Event.keyOther]).2.2
        = [] :=
  c4_no_edit_no_output initState0 [Event.pointerMove 3 3, Event.keyOther]
    (by decide)

/-- C5, counterexample.  In a session whose only event is
`pointer_down(5, 5)`, a primary (`to_hdf`) write happens while the
session is still running (from `_save_label`, line 102), and the writes
performed at session end contain no primary write at all — refuting
"written exactly once, at session end, never while the session is still
running". -/
theorem c5_counterexample :
    ((runSession initState0 [Event.pointerDown 5 5]).2.1.any
        FWrite.isPrimary) = true ∧
    ((runSession initState0 [Event.pointerDown 5 5]).2.2.all
        fun w => !w.isPrimary) = true := by decide

/-- C5, amended.  Primary writes happen synchronously during the session,
one per accepted edit, never at session end: every write emitted while
the loop is live is a primary write, every write emitted at session end
is a secondary (`.mat`) write, and — starting from a clean session —
`dirty` is true at the end exactly when at least one primary write
happened during the session. -/
theorem c5_primary_write_discipline (s : EState) (evs : List Event)
    (h : s.changesMade = false) :
    (∀ w ∈ (runSession s evs).2.1, ∃ t, w = FWrite.primary t) ∧
    (∀ w ∈ (runSession s evs).2.2, ∃ d, w = FWrite.secondary d) ∧
    ((runSession s evs).1.changesMade = true ↔ (runSession s evs).2.1 ≠ []) := by
  refine ⟨?_, ?_, ?_⟩
  · simp only [runSession, List.mem_append]
    intro w hw
    rcases hw with hw | hw
    · exact loopBody_writes_primary s w hw
    · exact processEvents_writes_primary (loopBody s).1 evs w hw
  · simp only [runSession, sessionEnd]
    intro w hw
    split at hw
    · simp only [List.mem_singleton] at hw
      exact ⟨_, hw⟩
    · simp at hw
  · simp only [runSession]
    rw [processEvents_changes, loopBody_changes, h]
    cases h1 : (loopBody s).2 <;>
      cases h2 : (processEvents (loopBody s).1 evs).2 <;>
      simp

/-- C5, witness: in the one-edit session the final dirty flag and the
presence of a live-session write agree. -/
theorem c5_witness :
    (runSession initState0 [Event.pointerDown 5 5]).1.changesMade = true
      ↔ (runSession initState0 [Event.pointerDown 5 5]).2.1 ≠ [] :=
  (c5_primary_write_discipline initState0 [Event.pointerDown 5 5] rfl).2.2

/-- Overwriting one cell's coordinates with concrete values keeps every
cell of the row missing-consistent. -/
lemma setInRow_missing (row : List Cell) (l : Nat) (x y : ℚ)
    (h : (row.all fun c => c.x.isNone == c.y.isNone) = true) :
    ((setInRow row l x y).all fun c => c.x.isNone == c.y.isNone) = true := by
  induction row generalizing l with
  | nil => simp [setInRow]
  | cons c cs ih =>
      cases l with
      | zero =>
          simp only [List.all_cons, Bool.and_eq_true] at h
          simp [setInRow, h.2]
      | succ l =>
          simp only [List.all_cons, Bool.and_eq_true] at h
          simp only [setInRow, List.all_cons, Bool.and_eq_true]
          exact ⟨h.1, ih l h.2⟩

/-- The store write of `_save_label` preserves missing-togetherness. -/
lemma setCoordinate_missing (t : Table) (f l : Nat) (x y : ℚ)
    (h : missingTogether t = true) :
    missingTogether (setCoordinate t f l x y) = true := by
  induction t generalizing f with
  | nil => simp [setCoordinate, missingTogether]
  | cons row rows ih =>
      cases f with
      | zero =>
          simp only [setCoordinate, missingTogether, List.all_cons,
            Bool.and_eq_true] at h ⊢
          exact ⟨setInRow_missing row l x y h.1, h.2⟩
      | succ f =>
          simp only [setCoordinate, missingTogether, List.all_cons,
            Bool.and_eq_true] at h ⊢
          exact ⟨h.1, ih f h.2⟩

/-- The loop body preserves missing-togetherness. -/
lemma loopBody_missing (s : EState)
    (h : missingTogether s.table = true) :
    missingTogether (loopBody s).1.table = true := by
  by_cases hp : s.mousePressed <;> simp [loopBody, saveLabel, hp]
  · exact setCoordinate_missing _ _ _ _ _ h
  · exact h

/-- Every event step preserves missing-togetherness of the table. -/
lemma stepEvent_missing (s : EState) (e : Event)
    (h : missingTogether s.table = true) :
    missingTogether (stepEvent s e).1.table = true := by
  cases e <;> simp only [stepEvent, saveLabel]
  · exact setCoordinate_missing _ _ _ _ _ h
  · exact h
  · split <;> exact h
  · exact h
  · exact h
  · exact loopBody_missing _ h
  · exact loopBody_missing _ h
  · exact loopBody_missing _ h

/-- Processing any event sequence preserves missing-togetherness. -/
lemma processEvents_missing (s : EState) (evs : List Event)
    (h : missingTogether s.table = true) :
    missingTogether (processEvents s evs).1.table = true := by
  induction evs generalizing s with
  | nil => simpa [processEvents] using h
  | cons e rest ih =>
      simp only [processEvents]
      exact ih (stepEvent s e).1 (stepEvent_missing s e h)

/-- C6.  Missing-together is an invariant of the session: if the loaded
table has, in every cell, the `x` channel missing exactly when the `y`
channel is, then after any sequence of pointer, slider and key events the
final table still does — the only mutation is `_save_label`, which always
writes both channels with concrete numbers. -/
theorem c6_missing_together_invariant (s : EState) (evs : List Event)
    (h : missingTogether s.table = true) :
    missingTogether (runSession s evs).1.table = true := by
  simp only [runSession]
  exact processEvents_missing _ evs (loopBody_missing s h)

/-- C6, witness: the invariant evaluated across a concrete session with a
press, a drag commit tick, and a slider move. -/
theorem c6_witness :
    missingTogether (runSession initState0 [Event.pointerDown 5 5,
      Event.pointerMove 6 6, Event.keyOther, Event.frameSlider 0]).1.table
      = true :=
  c6_missing_together_invariant initState0 [Event.pointerDown 5 5,
    Event.pointerMove 6 6, Event.keyOther, Event.frameSlider 0] (by decide)

/-- Lemma: `setInRow` keeps the row length. -/
lemma setInRow_length (row : List Cell) (l : Nat) (x y : ℚ) :
    (setInRow row l x y).length = row.length := by
  induction row generalizing l with
  | nil => rfl
  | cons c cs ih => cases l <;> simp [setInRow, ih]

/-- Reading the written label back from the row. -/
lemma setInRow_getD_self (row : List Cell) (l : Nat) (x y : ℚ) (d : Cell)
    (hl : l < row.length) :
    (setInRow row l x y).getD l d
      = { row.getD l d with x := some x, y := some y } := by
  induction row generalizing l with
  | nil => simp at hl
  | cons c cs ih =>
      cases l with
      | zero => simp [setInRow]
      | succ l =>
          simp only [setInRow, List.getD_cons_succ]
          exact ih l (by simpa using hl)

/-- Reading any other label of the row is unchanged. -/
lemma setInRow_getD_other (row : List Cell) (l m : Nat) (x y : ℚ) (d : Cell)
    (hm : m ≠ l) :
    (setInRow row l x y).getD m d = row.getD m d := by
  induction row generalizing l m with
  | nil => simp [setInRow]
  | cons c cs ih =>
      cases l with
      | zero =>
          cases m with
          | zero => exact absurd rfl hm
          | succ m => simp [setInRow]
      | succ l =>
          cases m with
          | zero => simp [setInRow]
          | succ m =>
              simp only [setInRow, List.getD_cons_succ]
              exact ih l m (fun hc => hm (by rw [hc]))

/-- Lemma: `setCoordinate` keeps the frame count. -/
lemma setCoordinate_length (t : Table) (f l : Nat) (x y : ℚ) :
    (setCoordinate t f l x y).length = t.length := by
  induction t generalizing f with
  | nil => rfl
  | cons row rows ih => cases f <;> simp [setCoordinate, ih]

/-- The written frame row after `setCoordinate`. -/
lemma setCoordinate_getD_self (t : Table) (f l : Nat) (x y : ℚ)
    (hf : f < t.length) :
    (setCoordinate t f l x y).getD f [] = setInRow (t.getD f []) l x y := by
  induction t generalizing f with
  | nil => simp at hf
  | cons row rows ih =>
      cases f with
      | zero => simp [setCoordinate]
      | succ f =>
          simp only [setCoordinate, List.getD_cons_succ]
          exact ih f (by simpa using hf)

/-- Any other frame row after `setCoordinate` is unchanged. -/
lemma setCoordinate_getD_other (t : Table) (f g l : Nat) (x y : ℚ)
    (hg : g ≠ f) :
    (setCoordinate t f l x y).getD g [] = t.getD g [] := by
  induction t generalizing f g with
  | nil => simp [setCoordinate]
  | cons row rows ih =>
      cases f with
      | zero =>
          cases g with
          | zero => exact absurd rfl hg
          | succ g => simp [setCoordinate]
      | succ f =>
          cases g with
          | zero => simp [setCoordinate]
          | succ g =>
              simp only [setCoordinate, List.getD_cons_succ]
              exact ih f g (fun hc => hg (by rw [hc]))

/-- C7.  The coordinate write of `_save_label` is exact: it sets the `x`
and `y` channels of the target `(frame, label)` cell together and changes
nothing else — the target's `likelihood`, and all three channels of every
other cell, are untouched. -/
theorem c7_set_coordinate_effect (t : Table) (f l : Nat) (x y : ℚ)
    (hf : f < t.length) (hl : l < (t.getD f []).length) :
    (cellAt (setCoordinate t f l x y) f l).x = some x ∧
    (cellAt (setCoordinate t f l x y) f l).y = some y ∧
    (∀ g m : Nat,
      (cellAt (setCoordinate t f l x y) g m).likelihood
        = (cellAt t g m).likelihood) ∧
    (∀ g m : Nat, ¬(g = f ∧ m = l) →
      cellAt (setCoordinate t f l x y) g m = cellAt t g m) := by
  have hself : cellAt (setCoordinate t f l x y) f l
      = { cellAt t f l with x := some x, y := some y } := by
    unfold cellAt
    rw [setCoordinate_getD_self t f l x y hf, setInRow_getD_self _ l x y _ hl]
  have hother : ∀ g m : Nat, ¬(g = f ∧ m = l) →
      cellAt (setCoordinate t f l x y) g m = cellAt t g m := by
    intro g m hgm
    unfold cellAt
    by_cases hg : g = f
    · subst hg
      have hm : m ≠ l := fun hc => hgm ⟨rfl, hc⟩
      rw [setCoordinate_getD_self t g l x y hf,
        setInRow_getD_other _ l m x y _ hm]
    · rw [setCoordinate_getD_other t f g l x y hg]
  refine ⟨by rw [hself], by rw [hself], ?_, hother⟩
  intro g m
  by_cases hgm : g = f ∧ m = l
  · rcases hgm with ⟨hg, hm⟩
    subst hg; subst hm
    rw [hself]
  · rw [hother g m hgm]

/-- C7, witness: the write evaluated on a concrete two-frame, two-label
table, checking the target cell and one untouched cell. -/
theorem c7_witness :
    (cellAt (setCoordinate c7Table 0 1 5 6) 0 1).x = some 5 ∧
    (cellAt (setCoordinate c7Table 0 1 5 6) 0 1).y = some 6 ∧
    (cellAt (setCoordinate c7Table 0 1 5 6) 0 1).likelihood
      = (cellAt c7Table 0 1).likelihood ∧
    cellAt (setCoordinate c7Table 0 1 5 6) 1 0 = cellAt c7Table 1 0 :=
  ⟨(c7_set_coordinate_effect c7Table 0 1 5 6 (by decide) (by decide)).1,
   (c7_set_coordinate_effect c7Table 0 1 5 6 (by decide) (by decide)).2.1,
   (c7_set_coordinate_effect c7Table 0 1 5 6 (by decide) (by decide)).2.2.1
     0 1,
   (c7_set_coordinate_effect c7Table 0 1 5 6 (by decide) (by decide)).2.2.2
     1 0 (by decide)⟩

/-- C8.  The secondary export is a pure reshape of the in-memory table it
is given: for every label index it yields exactly the three frame-ordered
channel sequences `x`, `y`, `likelihood`, each of length `N` (the
table's frame count), whose `i`-th entries are the channels of cell
`(i, label)`.  In the program it is applied to the final in-memory table
(`self.__label_data` in `_save_matlab_file`; the re-read of the written
file is commented out in the source). -/
theorem c8_secondary_export_shape (t : Table) (labelCount l i : Nat)
    (hl : l < labelCount) (hi : i < t.length) :
    (exportSecondary t labelCount)[l]?
      = some (columnOf t l Channel.x, columnOf t l Channel.y,
          columnOf t l Channel.likelihood) ∧
    (columnOf t l Channel.x).length = t.length ∧
    (columnOf t l Channel.y).length = t.length ∧
    (columnOf t l Channel.likelihood).length = t.length ∧
    (columnOf t l Channel.x)[i]? = some (cellAt t i l).x ∧
    (columnOf t l Channel.y)[i]? = some (cellAt t i l).y ∧
    (columnOf t l Channel.likelihood)[i]? = some (cellAt t i l).likelihood := by
  refine ⟨?_, by simp [columnOf], by simp [columnOf], by simp [columnOf],
    ?_, ?_, ?_⟩
  · simp [exportSecondary, List.getElem?_range hl]
  all_goals
    simp [columnOf, cellAt, List.getElem?_eq_getElem hi, chOf,
      List.getD_eq_getElem?_getD]

/-- C8, witness: the export shape evaluated on the concrete two-frame,
two-label table at label `1`, frame `0`. -/
theorem c8_witness :
    (exportSecondary c7Table 2)[1]?
      = some (columnOf c7Table 1 Channel.x, columnOf c7Table 1 Channel.y,
          columnOf c7Table 1 Channel.likelihood) ∧
    (columnOf c7Table 1 Channel.x).length = c7Table.length ∧
    (columnOf c7Table 1 Channel.y).length = c7Table.length ∧
    (columnOf c7Table 1 Channel.likelihood).length = c7Table.length ∧
    (columnOf c7Table 1 Channel.x)[0]? = some (cellAt c7Table 0 1).x ∧
    (columnOf c7Table 1 Channel.y)[0]? = some (cellAt c7Table 0 1).y ∧
    (columnOf c7Table 1 Channel.likelihood)[0]?
      = some (cellAt c7Table 0 1).likelihood :=
  c8_secondary_export_shape c7Table 2 1 0 (by decide) (by decide)

/-- Every string stands at its own head. -/
lemma leadsWith_refl : ∀ s : List Char, leadsWith s s = true
  | [] => rfl
  | c :: rest => by simp [leadsWith, leadsWith_refl rest]

/-- Standing at the head is transitive. -/
lemma leadsWith_trans :
    ∀ {n u v : List Char}, leadsWith n u = true → leadsWith u v = true →
      leadsWith n v = true := by
  intro n
  induction n with
  | nil => intro u v _ _; rfl
  | cons a as ih =>
      intro u v h1 h2
      cases u with
      | nil => simp [leadsWith] at h1
      | cons b bs =>
          cases v with
          | nil => simp [leadsWith] at h2
          | cons c cs =>
              simp only [leadsWith, Bool.and_eq_true, beq_iff_eq] at h1 h2 ⊢
              exact ⟨h1.1.trans h2.1, ih h1.2 h2.2⟩

/-- The cut-off piece stands at the head of the original string. -/
lemma cutAtMark_leadsWith (sep : List Char) :
    ∀ s, leadsWith (cutAtMark sep s) s = true := by
  intro s
  induction s with
  | nil => rfl
  | cons c rest ih =>
      by_cases h : leadsWith sep (c :: rest) = true
      · simp [cutAtMark, h, leadsWith]
      · have hb : leadsWith sep (c :: rest) = false := by
          revert h; cases leadsWith sep (c :: rest) <;> simp
        simp [cutAtMark, hb, leadsWith, ih]

/-- The cut-off piece contains no occurrence of the separator. -/
lemma hasMark_cutAtMark (a : Char) (tl : List Char) :
    ∀ s, hasMark (a :: tl) (cutAtMark (a :: tl) s) = false := by
  intro s
  induction s with
  | nil => rfl
  | cons c rest ih =>
      by_cases h : leadsWith (a :: tl) (c :: rest) = true
      · simp [cutAtMark, h, hasMark]
      · have hb : leadsWith (a :: tl) (c :: rest) = false := by
          revert h; cases leadsWith (a :: tl) (c :: rest) <;> simp
        simp only [cutAtMark, hb, Bool.false_eq_true, if_false]
        simp only [hasMark, Bool.or_eq_false_iff]
        refine ⟨?_, ih⟩
        by_cases hT :
            leadsWith (a :: tl) (c :: cutAtMark (a :: tl) rest) = true
        · have hstep : leadsWith (c :: cutAtMark (a :: tl) rest) (c :: rest)
              = true := by
            simp [leadsWith, cutAtMark_leadsWith]
          rw [leadsWith_trans hT hstep] at hb
          exact absurd hb (by simp)
        · revert hT
          cases leadsWith (a :: tl) (c :: cutAtMark (a :: tl) rest) <;> simp

/-- When the separator does not occur at all, nothing is cut. -/
lemma cutAtMark_of_no_mark (sep : List Char) :
    ∀ s, hasMark sep s = false → cutAtMark sep s = s := by
  intro s
  induction s with
  | nil => intro _; rfl
  | cons c rest ih =>
      intro h
      simp only [hasMark, Bool.or_eq_false_iff] at h
      simp [cutAtMark, h.1, ih h.2]

/-- A head-stand on `u ++ v` by something no longer than `u` is a
head-stand on `u`. -/
lemma leadsWith_append_left :
    ∀ {n u v : List Char}, leadsWith n (u ++ v) = true →
      n.length ≤ u.length → leadsWith n u = true := by
  intro n
  induction n with
  | nil => intro u v _ _; rfl
  | cons a as ih =>
      intro u v h hlen
      cases u with
      | nil => simp at hlen
      | cons b bs =>
          simp only [List.cons_append, leadsWith, Bool.and_eq_true] at h ⊢
          exact ⟨h.1, ih h.2 (by simpa using hlen)⟩

/-- A head-stand on `u ++ v` by something longer than `u` makes the
remainder of the needle stand at the head of `v`. -/
lemma leadsWith_append_split :
    ∀ {u n v : List Char}, u.length < n.length →
      leadsWith n (u ++ v) = true → leadsWith (n.drop u.length) v = true := by
  intro u
  induction u with
  | nil => intro n v _ h; simpa using h
  | cons b bs ih =>
      intro n v hlen h
      cases n with
      | nil => simp at hlen
      | cons a as =>
          simp only [List.cons_append, leadsWith, Bool.and_eq_true] at h
          have := @ih as v (by simpa using hlen) h.2
          simpa using this

/-- For a separator without self-overlapping occurrences, appending the
separator to a string free of it puts the first occurrence exactly at the
junction. -/
lemma cutAtMark_append_self (n : List Char) (hne : n ≠ [])
    (hno : NoSelfOverlap n) :
    ∀ s, hasMark n s = false → cutAtMark n (s ++ n) = s := by
  intro s
  induction s with
  | nil =>
      intro _
      cases n with
      | nil => exact absurd rfl hne
      | cons a tl =>
          show cutAtMark (a :: tl) ([] ++ (a :: tl)) = []
          simp [cutAtMark, leadsWith_refl]
  | cons c s' ih =>
      intro h
      simp only [hasMark, Bool.or_eq_false_iff] at h
      obtain ⟨h1, h2⟩ := h
      have hlw : leadsWith n ((c :: s') ++ n) = false := by
        by_cases hT : leadsWith n ((c :: s') ++ n) = true
        · rcases Nat.lt_or_ge (c :: s').length n.length with hlt | hge
          · have hdrop := leadsWith_append_split hlt hT
            rw [hno (c :: s').length hlt (by simp)] at hdrop
            exact absurd hdrop (by simp)
          · rw [leadsWith_append_left hT hge] at h1
            exact absurd h1 (by simp)
        · revert hT; cases leadsWith n ((c :: s') ++ n) <;> simp
      show cutAtMark n (c :: (s' ++ n)) = c :: s'
      simp only [List.cons_append] at hlw
      simp [cutAtMark, hlw, ih h2]

/-- The string `"_Fixed"` has no self-overlapping occurrences: no
nonempty proper suffix of it is one of its prefixes. -/
lemma noSelfOverlap_fixedMark : NoSelfOverlap fixedMark := by
  intro m hm h0
  have h6 : m < 6 := by simpa [fixedMark] using hm
  interval_cases m <;> decide

/-- C9, counterexample.  On the input base name `data_Fixed_v2` (with the
validated `.h5` extension), the code produces `data_Fixed.h5`:
`rsplit('_Fixed')[0]` (line 44) cuts at the FIRST occurrence of
`"_Fixed"`, not at a trailing suffix, while the claim's law would keep
the untouched base and produce `data_Fixed_v2_Fixed.h5`. -/
theorem c9_counterexample :
    editorFixedName ("data_Fixed_v2".toList)
      ≠ claimedFixedName ("data_Fixed_v2".toList) (".h5".toList) := by
  decide

/-- C9, amended.  The primary output path is the input directory joined
with the input base name truncated at the FIRST occurrence of `"_Fixed"`
(everything from that occurrence on is removed, not only a trailing
suffix), with `"_Fixed.h5"` appended; the extension is always the
lowercase `.h5` the input was validated to carry.  For a base of the form
`stem` or `stem ++ "_Fixed"` with `"_Fixed"` not occurring in `stem`, the
output base is `stem ++ "_Fixed.h5"` — the claim's law; in general the
derived stem is a prefix of the base that contains no `"_Fixed"`. -/
theorem c9_output_path (stem : List Char)
    (h : hasMark fixedMark stem = false) :
    editorFixedName stem = stem ++ "_Fixed.h5".toList ∧
    editorFixedName (stem ++ fixedMark) = stem ++ "_Fixed.h5".toList ∧
    hasMark fixedMark (cutAtMark fixedMark stem) = false ∧
    leadsWith (cutAtMark fixedMark stem) stem = true := by
  refine ⟨?_, ?_, ?_, cutAtMark_leadsWith fixedMark stem⟩
  · unfold editorFixedName
    rw [cutAtMark_of_no_mark fixedMark stem h]
  · unfold editorFixedName
    rw [cutAtMark_append_self fixedMark (by decide) noSelfOverlap_fixedMark
      stem h]
  · have hfm : fixedMark = '_' :: "Fixed".toList := rfl
    rw [hfm]
    exact hasMark_cutAtMark '_' ("Fixed".toList) stem

/-- C9, witness: the amended path law evaluated at the stem `data`. -/
theorem c9_witness :
    editorFixedName ("data".toList) = "data".toList ++ "_Fixed.h5".toList ∧
    editorFixedName ("data".toList ++ fixedMark)
      = "data".toList ++ "_Fixed.h5".toList ∧
    hasMark fixedMark (cutAtMark fixedMark ("data".toList)) = false ∧
    leadsWith (cutAtMark fixedMark ("data".toList)) ("data".toList)
      = true :=
  c9_output_path ("data".toList) (by decide)

end DLCLabelEditor
